import Mathlib

/-!
Shallow embedding of the go-radius RADIUS library (packet codec, dictionary
loader, obscuring crypto, scalar codecs) and proofs about it.

Modelling conventions:
* Go `uint8` values are `Nat`; a Go cast `uint8(e)` is `e % 256`, `uint16(e)`
  is `e % 65536`.  Byte buffers are `List Nat`.
* A Go function that can return an `error`, or panic (index / slice out of
  range), returns `GoResult`: `.ok` for a normal result, `.err` for a
  returned non-nil error, `.fault` for a run-time panic.
* `crypto/md5` and HMAC-MD5 are pure functions of their input bytes; they are
  taken as function parameters (`md5`, `hmac`).  Real MD5 always produces 16
  bytes, which theorems assume where needed.  Likewise `net.ParseIP` is a
  parameter `parseIP`, with `net.ParseIP("") = nil` modelled as `[]`, and the
  textual rendering of a 16-byte IP is a parameter `ip16ToString`.
* Randomness (fresh packet authenticators) is a parameter `fresh`.
-/

namespace GoRadius

/-- Outcome of a Go call: normal value, returned error, or run-time panic. -/
inductive GoResult (α : Type) where
  | ok (val : α)
  | err
  | fault
deriving DecidableEq, Repr

/-- `TypeCode` from radius_packet.go: the RFC 2865/3576 packet codes. -/
inductive TypeCode where
  | accessRequest
  | accessAccept
  | accessReject
  | accountingRequest
  | accountingResponse
  | accessChallenge
  | statusServer
  | statusClient
  | disconnectRequest
  | disconnectACK
  | disconnectNAK
  | coARequest
  | coAACK
  | coANAK
deriving DecidableEq, Repr

/-- `typeCodeFromUint8` from radius_packet.go. -/
def typeCodeFromUint8 (code : Nat) : Option TypeCode :=
  match code with
  | 1 => some .accessRequest
  | 2 => some .accessAccept
  | 3 => some .accessReject
  | 4 => some .accountingRequest
  | 5 => some .accountingResponse
  | 11 => some .accessChallenge
  | 12 => some .statusServer
  | 13 => some .statusClient
  | 40 => some .disconnectRequest
  | 41 => some .disconnectACK
  | 42 => some .disconnectNAK
  | 43 => some .coARequest
  | 44 => some .coAACK
  | 45 => some .coANAK
  | _ => none

/-- `typeCodeToUint8` from radius_packet.go (total on the enum). -/
def typeCodeToUint8 (code : TypeCode) : Nat :=
  match code with
  | .accessRequest => 1
  | .accessAccept => 2
  | .accessReject => 3
  | .accountingRequest => 4
  | .accountingResponse => 5
  | .accessChallenge => 11
  | .statusServer => 12
  | .statusClient => 13
  | .disconnectRequest => 40
  | .disconnectACK => 41
  | .disconnectNAK => 42
  | .coARequest => 43
  | .coAACK => 44
  | .coANAK => 45

/-- `SupportedAttributeTypes` from dictionary.go. -/
inductive SupportedAttributeTypes where
  | asciiString
  | byteString
  | integer
  | integer64
  | date
  | ipv4Addr
  | ipv4Pfx
  | ipv6Addr
  | ipv6Pfx
  | interfaceId
deriving DecidableEq, Repr

/-- `DictionaryAttribute` from dictionary.go. -/
structure DictionaryAttribute where
  name : String
  vendorName : String
  code : Nat
  codeType : SupportedAttributeTypes
deriving DecidableEq, Repr

/-- `DictionaryValue` from dictionary.go. -/
structure DictionaryValue where
  attributeName : String
  valueName : String
  vendorName : String
  value : String
deriving DecidableEq, Repr

/-- `DictionaryVendor` from dictionary.go. -/
structure DictionaryVendor where
  name : String
  id : Nat
deriving DecidableEq, Repr

/-- `Dictionary` from dictionary.go. -/
structure Dictionary where
  attributes : List DictionaryAttribute
  values : List DictionaryValue
  vendors : List DictionaryVendor
deriving DecidableEq, Repr

/-- `RadiusAttribute` from radius_packet.go. -/
structure RadiusAttribute where
  id : Nat
  name : String
  value : List Nat
deriving DecidableEq, Repr

/-- `CreateRadAttributeByID` from radius_packet.go: first dictionary entry
with the given code wins. -/
def CreateRadAttributeByID (dictionary : Dictionary) (attributeID : Nat)
    (value : List Nat) : Option RadiusAttribute :=
  match dictionary.attributes.find? (fun attr => attr.code == attributeID) with
  | some attr => some ⟨attributeID, attr.name, value⟩
  | none => none

/-- `CreateRadAttributeByName` from radius_packet.go. -/
def CreateRadAttributeByName (dictionary : Dictionary) (attributeName : String)
    (value : List Nat) : Option RadiusAttribute :=
  match dictionary.attributes.find? (fun attr => attr.name == attributeName) with
  | some attr => some ⟨attr.code, attributeName, value⟩
  | none => none

/-- The first dictionary entry with code `id` exists and is named `name`. -/
def resolvesFirst (dictionary : Dictionary) (id : Nat) (name : String) : Bool :=
  match dictionary.attributes.find? (fun attr => attr.code == id) with
  | some attr => attr.name == name
  | none => false

/-- `RadiusAttribute.toBytes` from radius_packet.go:
`id || uint8(2+len(value)) || value`. -/
def RadiusAttribute.toBytes (radAttr : RadiusAttribute) : List Nat :=
  radAttr.id :: (2 + radAttr.value.length) % 256 :: radAttr.value

/-- `RadiusPacket` from radius_packet.go. -/
structure RadiusPacket where
  id : Nat
  code : TypeCode
  authenticator : List Nat
  attributes : List RadiusAttribute
deriving DecidableEq, Repr

/-- `packetLengthToBytes` from radius_packet.go: big-endian uint16. -/
def packetLengthToBytes (length : Nat) : List Nat :=
  [length / 256 % 256, length % 256]

/-- `RadiusPacket.ToBytes` from radius_packet.go.  `fresh` stands for the
random authenticator generated when the packet's authenticator is empty. -/
def RadiusPacket.ToBytes (fresh : List Nat) (radPacket : RadiusPacket) : List Nat :=
  let authenticator :=
    if radPacket.authenticator.isEmpty then fresh else radPacket.authenticator
  let packetAttr := List.flatten (radPacket.attributes.map RadiusAttribute.toBytes)
  typeCodeToUint8 radPacket.code :: radPacket.id ::
    packetLengthToBytes ((20 + packetAttr.length) % 65536) ++
    authenticator ++ packetAttr

/-- The attribute loop of `InitialiseRadiusPacketFromBytes`: starting from
offset 20, read `attrID = buf[i]`, `attrLength = buf[i+1]`,
`attrValue = buf[i+2 : i+attrLength]`, resolve the id in the dictionary,
advance by `attrLength`; stop exactly when the offset reaches the end.
`.fault` models the Go panics (index out of range on `buf[i+1]`, slice out of
range when `attrLength < 2` or `i + attrLength > len(buf)`). -/
def parseAttributes (dictionary : Dictionary) (data : List Nat) :
    GoResult (List RadiusAttribute) :=
  match data with
  | [] => .ok []
  | [_] => .fault
  | attrId :: attrLength :: rest =>
    if attrLength < 2 then .fault
    else if rest.length < attrLength - 2 then .fault
    else
      match CreateRadAttributeByID dictionary attrId (rest.take (attrLength - 2)) with
      | none => .err
      | some attr =>
        match parseAttributes dictionary (rest.drop (attrLength - 2)) with
        | .ok attrs => .ok (attr :: attrs)
        | .err => .err
        | .fault => .fault
termination_by data.length
decreasing_by
  simp only [List.length_drop, List.length_cons]
  omega

/-- `InitialiseRadiusPacketFromBytes` from radius_packet.go. -/
def InitialiseRadiusPacketFromBytes (dictionary : Dictionary)
    (bytes : List Nat) : GoResult RadiusPacket :=
  match bytes with
  | [] => .fault
  | b0 :: _ =>
    match typeCodeFromUint8 b0 with
    | none => .err
    | some code =>
      if bytes.length < 20 then .fault
      else
        match parseAttributes dictionary (bytes.drop 20) with
        | .ok attributes =>
          .ok ⟨bytes.getD 1 0, code, (bytes.drop 4).take 16, attributes⟩
        | .err => .err
        | .fault => .fault

/-! ### Message-Authenticator (radius_packet.go and host.go) -/

/-- Helper for `OverrideMessageAuthenticator`: replace the value of the first
attribute named Message-Authenticator; `none` when there is none. -/
def overrideFirstMA (newValue : List Nat) :
    List RadiusAttribute → Option (List RadiusAttribute)
  | [] => none
  | attr :: rest =>
    if attr.name = "Message-Authenticator" then
      some ({ attr with value := newValue } :: rest)
    else
      (overrideFirstMA newValue rest).map (attr :: ·)

/-- `RadiusPacket.OverrideMessageAuthenticator` from radius_packet.go;
`none` models the returned error when the attribute is absent (the packet is
then left unchanged). -/
def RadiusPacket.OverrideMessageAuthenticator (radPacket : RadiusPacket)
    (newValue : List Nat) : Option RadiusPacket :=
  (overrideFirstMA newValue radPacket.attributes).map
    (fun attrs => { radPacket with attributes := attrs })

/-- `RadiusPacket.MessageAuthenticator` from radius_packet.go: value of the
first attribute named Message-Authenticator. -/
def RadiusPacket.MessageAuthenticator (radPacket : RadiusPacket) :
    Option (List Nat) :=
  (radPacket.attributes.find? (fun attr => attr.name == "Message-Authenticator")).map
    RadiusAttribute.value

/-- `RadiusPacket.GenerateMessageAuthenticator` from radius_packet.go:
zero the attribute, serialize, HMAC-MD5 with the secret, write the digest
back.  `hmac secret msg` stands for HMAC-MD5. -/
def RadiusPacket.GenerateMessageAuthenticator
    (hmac : List Nat → List Nat → List Nat) (fresh secret : List Nat)
    (radPacket : RadiusPacket) : Option RadiusPacket :=
  match radPacket.OverrideMessageAuthenticator (List.replicate 16 0) with
  | none => none
  | some p1 => p1.OverrideMessageAuthenticator (hmac secret (p1.ToBytes fresh))

/-- `Host` from host.go. -/
structure Host where
  authPort : Nat
  acctPort : Nat
  coaPort : Nat
  dictionary : Dictionary
deriving DecidableEq, Repr

/-- `CreateHostWithDictionary` from host.go. -/
def CreateHostWithDictionary (dictionary : Dictionary) : Host :=
  ⟨0, 0, 0, dictionary⟩

/-- `Host.VerifyMessageAuthenticator` from host.go: reparse, extract the
current Message-Authenticator, zero it, reserialize, recompute HMAC-MD5 and
compare with the extracted value. -/
def Host.VerifyMessageAuthenticator (hmac : List Nat → List Nat → List Nat)
    (fresh : List Nat) (host : Host) (secret : List Nat)
    (packet : List Nat) : GoResult Unit :=
  match InitialiseRadiusPacketFromBytes host.dictionary packet with
  | .err => .err
  | .fault => .fault
  | .ok radPacket =>
    match radPacket.MessageAuthenticator with
    | none => .err
    | some originalMsgAuth =>
      let radPacket2 :=
        (radPacket.OverrideMessageAuthenticator (List.replicate 16 0)).getD radPacket
      if hmac secret (radPacket2.ToBytes fresh) = originalMsgAuth then .ok ()
      else .err

/-! ### Obscuring crypto (encrypt_decrypt.go) -/

/-- Go `copy` into a fresh zeroed buffer of size `n`. -/
def goCopyFit (n : Nat) (src : List Nat) : List Nat :=
  (src ++ List.replicate n 0).take n

/-- The block loop of `encryptHelper`: XOR each 16-byte block of `data` with
`MD5(secret || prev)`, where `prev` is the authenticator for the first block
and the previous ciphertext block afterwards. -/
def encryptChunks (md5 : List Nat → List Nat) (secret prev data : List Nat) :
    List Nat :=
  match data with
  | [] => []
  | _ :: rest =>
    let c := List.zipWith Nat.xor (data.take 16) (md5 (secret ++ prev))
    c ++ encryptChunks md5 secret c (rest.drop 15)
termination_by data.length
decreasing_by
  simp only [List.length_drop, List.length_cons]
  omega

/-- `EncryptData` from encrypt_decrypt.go: zero-pad to the next multiple of
16 (a full extra block when the length is already a multiple of 16), then
run the chained XOR. -/
def EncryptData (md5 : List Nat → List Nat)
    (data authenticator secret : List Nat) : List Nat :=
  encryptChunks md5 secret authenticator
    (data ++ List.replicate (16 - data.length % 16) 0)

/-- The block loop shared by `DecryptData` and `SaltDecryptData`: XOR each
16-byte block of `data` with `MD5(secret || prev)`, `prev` being the previous
ciphertext block (`authenticator` first).  `.fault` models the Go panic when
fewer than 16 bytes remain at the start of an iteration (in particular on
empty input, since the loop tests only at the end). -/
def decryptChunks (md5 : List Nat → List Nat) (secret prev data : List Nat) :
    GoResult (List Nat) :=
  if data.length < 16 then .fault
  else
    let p := List.zipWith Nat.xor (md5 (secret ++ prev)) (data.take 16)
    if data.length = 16 then .ok p
    else
      match decryptChunks md5 secret (data.take 16) (data.drop 16) with
      | .ok rest => .ok (p ++ rest)
      | .err => .err
      | .fault => .fault
termination_by data.length
decreasing_by
  simp only [List.length_drop]
  omega

/-- The trailing-zero strip of `DecryptData`, on a reversed buffer: drop
leading zeros; `none` models the panic when everything is zero (the Go loop
then indexes position -1). -/
def stripRev : List Nat → Option (List Nat)
  | [] => none
  | x :: xs => if x = 0 then stripRev xs else some (x :: xs)

/-- The trailing-zero-stripping loop at the end of `DecryptData`. -/
def stripTrailingZeros (xs : List Nat) : Option (List Nat) :=
  (stripRev xs.reverse).map List.reverse

/-- `DecryptData` from encrypt_decrypt.go.  The initial `prev` is a 16-byte
buffer filled by `copy` from the authenticator. -/
def DecryptData (md5 : List Nat → List Nat)
    (data authenticator secret : List Nat) : GoResult (List Nat) :=
  match decryptChunks md5 secret (goCopyFit 16 authenticator) data with
  | .ok result =>
    match stripTrailingZeros result with
    | some r => .ok r
    | none => .fault
  | .err => .err
  | .fault => .fault

/-- `SaltDecryptData` from encrypt_decrypt.go.  Note the source takes
`initialLen := uint8(len(*data))`, i.e. the length modulo 256. -/
def SaltDecryptData (md5 : List Nat → List Nat)
    (data authenticator secret : List Nat) : GoResult (List Nat) :=
  let initialLen := data.length % 256
  if initialLen ≤ 1 then .err
  else if initialLen ≤ 17 then .ok []
  else if authenticator.length < 16 then .fault
  else
    match decryptChunks md5 secret (authenticator.take 16 ++ data.take 2)
        (data.drop 2) with
    | .ok result =>
      match result with
      | [] => .fault
      | targetLen :: rest =>
        if initialLen - 3 < targetLen then .err
        else .ok (rest.take targetLen)
    | .err => .err
    | .fault => .fault

/-! ### Scalar codecs (tools.go) -/

/-- Split a character list at every separator occurrence (Go
`strings.Split` with a one-character separator, character-level). -/
def splitCharList (sep : Char) : List Char → List (List Char)
  | [] => [[]]
  | c :: rest =>
    let r := splitCharList sep rest
    if c = sep then [] :: r
    else
      match r with
      | [] => [[c]]
      | g :: gs => (c :: g) :: gs

/-- Go `strings.Split(s, "/")`: `""` yields `[""]`. -/
def goSplitSlash (s : String) : List String :=
  (splitCharList '/' s.data).map (fun cs => String.mk cs)

/-- Go `strings.HasPrefix`. -/
def goStartsWith (s pre : String) : Bool :=
  pre.data.isPrefixOf s.data

/-- Go `strconv.ParseUint(s, 10, 8)`: decimal digits only, bounded by 255. -/
def parseUint8 (s : String) : Option Nat :=
  if s.length ≠ 0 ∧ s.data.all Char.isDigit then
    let v := s.data.foldl (fun acc c => acc * 10 + (c.toNat - 48)) 0
    if v ≤ 255 then some v else none
  else none

/-- `BytesToInteger` from tools.go: big-endian u32, length must be 4. -/
def BytesToInteger (integer : List Nat) : Option Nat :=
  match integer with
  | [b0, b1, b2, b3] => some (((b0 * 256 + b1) * 256 + b2) * 256 + b3)
  | _ => none

/-- `BytesToTimestamp` from tools.go: big-endian u32, length must be 4. -/
def BytesToTimestamp (timestamp : List Nat) : Option Nat :=
  match timestamp with
  | [b0, b1, b2, b3] => some (((b0 * 256 + b1) * 256 + b2) * 256 + b3)
  | _ => none

/-- `BytesToIPv4String` from tools.go: length 6 is `00 pp` plus address,
length 4 a bare address, anything else an error. -/
def BytesToIPv4String (ipv4 : List Nat) : Option String :=
  match ipv4 with
  | [s0, s1, a, b, c, d] =>
    some (toString a ++ "." ++ toString b ++ "." ++ toString c ++ "." ++
      toString d ++ "/" ++ toString (s0 * 256 + s1))
  | [a, b, c, d] =>
    some (toString a ++ "." ++ toString b ++ "." ++ toString c ++ "." ++
      toString d)
  | _ => none

/-- `BytesToIPv6String` from tools.go: 18 bytes is `00 pp` plus address,
16 bytes a bare address, anything else a failure.  `ip16ToString` stands for
Go's `net.IP.String` on the 16 address bytes. -/
def BytesToIPv6String (ip16ToString : List Nat → String) (ipv6 : List Nat) :
    Option String :=
  if ipv6.length = 18 then
    some (ip16ToString (ipv6.drop 2) ++ "/" ++ toString (ipv6.getD 1 0))
  else if ipv6.length = 16 then
    some (ip16ToString ipv6)
  else none

/-- `IPv6StringToBytes` from tools.go.  `parseIP` stands for `net.ParseIP`,
with `nil` modelled as `[]`. -/
def IPv6StringToBytes (parseIP : String → List Nat) (ipv6 : String) :
    GoResult (List Nat) :=
  let processedIPv6 := goSplitSlash ipv6
  if processedIPv6.length = 2 then
    match parseUint8 (processedIPv6.getD 1 "") with
    | none => .err
    | some value => .ok ([0, value] ++ parseIP (processedIPv6.getD 0 ""))
  else
    .ok (parseIP (processedIPv6.getD 0 ""))

/-- `IPv4StringToBytes` from tools.go.  The source slices
`net.ParseIP(processedIPv4[0])[12:]`, which panics when `ParseIP` returned
`nil` (fewer than 12 bytes); `.fault` models that panic. -/
def IPv4StringToBytes (parseIP : String → List Nat) (ipv4 : String) :
    GoResult (List Nat) :=
  let processedIPv4 := goSplitSlash ipv4
  if processedIPv4.length = 2 then
    match parseUint8 (processedIPv4.getD 1 "") with
    | none => .err
    | some value =>
      if 32 < value then .err
      else
        let base := parseIP (processedIPv4.getD 0 "")
        if base.length < 12 then .fault
        else .ok ([0, value] ++ base.drop 12)
  else
    let base := parseIP (processedIPv4.getD 0 "")
    if base.length < 12 then .fault
    else .ok (base.drop 12)

/-! ### Attribute validation (radius_packet.go) -/

/-- A UTF-8 continuation byte. -/
def utf8Cont (b : Nat) : Bool := 0x80 ≤ b && b ≤ 0xBF

/-- Lower bound for the second byte of a multi-byte UTF-8 sequence. -/
def utf8SecondLo (b : Nat) : Nat :=
  if b = 0xE0 then 0xA0 else if b = 0xF0 then 0x90 else 0x80

/-- Upper bound for the second byte of a multi-byte UTF-8 sequence. -/
def utf8SecondHi (b : Nat) : Nat :=
  if b = 0xED then 0x9F else if b = 0xF4 then 0x8F else 0xBF

/-- Go `unicode/utf8.Valid`: well-formed UTF-8, rejecting overlong
encodings, surrogates and code points above U+10FFFF. -/
def utf8Valid : List Nat → Bool
  | [] => true
  | b :: rest =>
    if b ≤ 0x7F then utf8Valid rest
    else if 0xC2 ≤ b ∧ b ≤ 0xDF then
      match rest with
      | b1 :: r => utf8Cont b1 && utf8Valid r
      | [] => false
    else if 0xE0 ≤ b ∧ b ≤ 0xEF then
      match rest with
      | b1 :: b2 :: r =>
        (utf8SecondLo b ≤ b1 && b1 ≤ utf8SecondHi b) && utf8Cont b2 &&
          utf8Valid r
      | _ => false
    else if 0xF0 ≤ b ∧ b ≤ 0xF4 then
      match rest with
      | b1 :: b2 :: b3 :: r =>
        (utf8SecondLo b ≤ b1 && b1 ≤ utf8SecondHi b) && utf8Cont b2 &&
          utf8Cont b3 && utf8Valid r
      | _ => false
    else false
termination_by xs => xs.length
decreasing_by all_goals simp only [List.length_cons]; omega

/-- `RadiusAttribute.VerifyOriginalValue` from radius_packet.go.  The switch
has no `Integer64`, `IPv4Prefix` or `InterfaceId` case, so those fall to the
default and return false. -/
def RadiusAttribute.VerifyOriginalValue (ip16ToString : List Nat → String)
    (radAttr : RadiusAttribute) (allowedType : SupportedAttributeTypes) :
    Bool :=
  match allowedType with
  | .asciiString => utf8Valid radAttr.value
  | .byteString => !radAttr.value.isEmpty
  | .integer => (BytesToInteger radAttr.value).isSome
  | .date => (BytesToTimestamp radAttr.value).isSome
  | .ipv4Addr => ((BytesToIPv4String radAttr.value).getD "") != ""
  | .ipv6Addr => (BytesToIPv6String ip16ToString radAttr.value).isSome
  | .ipv6Pfx => (BytesToIPv6String ip16ToString radAttr.value).isSome
  | _ => false

/-! ### Dictionary loader (dictionary.go) -/

/-- Split a character list at every character satisfying `p`. -/
def splitPredCharList (p : Char → Bool) : List Char → List (List Char)
  | [] => [[]]
  | c :: rest =>
    let r := splitPredCharList p rest
    if p c then [] :: r
    else
      match r with
      | [] => [[c]]
      | g :: gs => (c :: g) :: gs

/-- Go `strings.Fields`: split on whitespace runs, no empty fields
(whitespace restricted to space, tab, CR, LF). -/
def goFields (line : String) : List String :=
  ((splitPredCharList Char.isWhitespace line.data).map
    (fun cs => String.mk cs)).filter (fun s => s ≠ "")

/-- `assignAttributeType` from dictionary.go. -/
def assignAttributeType (codeType : String) : Option SupportedAttributeTypes :=
  if codeType = "text" then some .asciiString
  else if codeType = "string" then some .byteString
  else if codeType = "integer" then some .integer
  else if codeType = "integer64" then some .integer64
  else if codeType = "time" then some .date
  else if codeType = "ipv4addr" ∨ codeType = "ipaddr" then some .ipv4Addr
  else if codeType = "ipv4prefix" then some .ipv4Pfx
  else if codeType = "ipv6addr" then some .ipv6Addr
  else if codeType = "ipv6prefix" then some .ipv6Pfx
  else if codeType = "ifid" then some .interfaceId
  else none

/-- `parseAttribute` from dictionary.go.  A numeric parse failure is a
`panic(err)` in the source, modelled as `.fault`; an unknown type token
skips the line; missing fields panic on indexing. -/
def parseAttribute (parsedLine : List String) (vendorName : String)
    (attributes : List DictionaryAttribute) :
    GoResult (List DictionaryAttribute) :=
  match parsedLine.get? 2 with
  | none => .fault
  | some codeStr =>
    match parseUint8 codeStr with
    | none => .fault
    | some code =>
      match parsedLine.get? 3 with
      | none => .fault
      | some typeStr =>
        match assignAttributeType typeStr with
        | none => .ok attributes
        | some attrType =>
          .ok (attributes ++ [⟨parsedLine.getD 1 "", vendorName, code, attrType⟩])

/-- `parseValue` from dictionary.go. -/
def parseValue (parsedLine : List String) (vendorName : String)
    (values : List DictionaryValue) : GoResult (List DictionaryValue) :=
  match parsedLine.get? 1, parsedLine.get? 2, parsedLine.get? 3 with
  | some a, some b, some c => .ok (values ++ [⟨a, b, vendorName, c⟩])
  | _, _, _ => .fault

/-- `parseVendor` from dictionary.go; a numeric parse failure is a
`panic(err)` in the source, modelled as `.fault`. -/
def parseVendor (parsedLine : List String)
    (vendors : List DictionaryVendor) : GoResult (List DictionaryVendor) :=
  match parsedLine.get? 2 with
  | none => .fault
  | some idStr =>
    match parseUint8 idStr with
    | none => .fault
    | some id => .ok (vendors ++ [⟨parsedLine.getD 1 "", id⟩])

/-- The scanner loop of `DictionaryFromFile`, over the file's lines.  Empty
lines and lines starting with `#` are skipped; a whitespace-only line panics
on `parsedLine[0]`. -/
def dictionaryFromLines : List String → List DictionaryAttribute →
    List DictionaryValue → List DictionaryVendor → String → GoResult Dictionary
  | [], attrs, vals, vens, _ => .ok ⟨attrs, vals, vens⟩
  | line :: rest, attrs, vals, vens, vendorName =>
    if line = "" ∨ goStartsWith line "#" then
      dictionaryFromLines rest attrs vals vens vendorName
    else
      match (goFields line).head? with
      | none => .fault
      | some tok =>
        if tok = "ATTRIBUTE" then
          match parseAttribute (goFields line) vendorName attrs with
          | .ok attrs2 => dictionaryFromLines rest attrs2 vals vens vendorName
          | .err => .err
          | .fault => .fault
        else if tok = "VALUE" then
          match parseValue (goFields line) vendorName vals with
          | .ok vals2 => dictionaryFromLines rest attrs vals2 vens vendorName
          | .err => .err
          | .fault => .fault
        else if tok = "VENDOR" then
          match parseVendor (goFields line) vens with
          | .ok vens2 => dictionaryFromLines rest attrs vals vens2 vendorName
          | .err => .err
          | .fault => .fault
        else if tok = "BEGIN-VENDOR" then
          match (goFields line).get? 1 with
          | none => .fault
          | some vn => dictionaryFromLines rest attrs vals vens vn
        else if tok = "END-VENDOR" then
          dictionaryFromLines rest attrs vals vens ""
        else
          dictionaryFromLines rest attrs vals vens vendorName

/-- `DictionaryFromFile` from dictionary.go, on the file's list of lines
(the `os.Open`/scanner I/O boundary is outside the model). -/
def DictionaryFromFile (lines : List String) : GoResult Dictionary :=
  dictionaryFromLines lines [] [] [] ""

/-- The chained-XOR inverse as the specification words it, with no failure
mode: XOR each (possibly ragged final) 16-byte block with
`MD5(secret || prev)`.  This is the specification-side definition used to
compare `SaltDecryptData` against the claim; it is not translated from the
source. -/
def chainSpecBlocks (md5 : List Nat → List Nat) (secret prev data : List Nat) :
    List Nat :=
  match data with
  | [] => []
  | _ :: rest =>
    List.zipWith Nat.xor (md5 (secret ++ prev)) (data.take 16) ++
      chainSpecBlocks md5 secret (data.take 16) (rest.drop 15)
termination_by data.length
decreasing_by
  simp only [List.length_drop, List.length_cons]
  omega

/-- Tunnel-Password decryption as the claim words it (specification-side
definition, for comparison only): decode error for length ≤ 1, empty
plaintext for length in [2..17], otherwise split off the 2-byte salt, apply
the inverse chain, read the declared length `L`, fail exactly when `L`
exceeds the input length minus 3, else return the next `L` bytes. -/
def saltDecryptClaimed (md5 : List Nat → List Nat)
    (data authenticator secret : List Nat) : GoResult (List Nat) :=
  if data.length ≤ 1 then .err
  else if data.length ≤ 17 then .ok []
  else
    match chainSpecBlocks md5 secret (authenticator ++ data.take 2)
        (data.drop 2) with
    | [] => .err
    | targetLen :: rest =>
      if data.length - 3 < targetLen then .err
      else .ok (rest.take targetLen)

/-! ## Lemmas about the crypto chains -/

lemma zipWith_xor_cancel :
    ∀ (h d : List Nat), d.length ≤ h.length →
      List.zipWith Nat.xor h (List.zipWith Nat.xor d h) = d := by
  intro h d
  induction d generalizing h with
  | nil => intro _; simp
  | cons x d' ih =>
    intro hle
    cases h with
    | nil => simp at hle
    | cons y h' =>
      simp only [List.zipWith_cons_cons]
      have hx : Nat.xor y (Nat.xor x y) = x := by
        show y ^^^ (x ^^^ y) = x
        rw [Nat.xor_comm x y, ← Nat.xor_assoc, Nat.xor_self, Nat.zero_xor]
      rw [hx, ih h' (by simpa using hle)]

lemma encryptChunks_ne_nil_eq (md5 : List Nat → List Nat)
    (secret prev data : List Nat) (h : data ≠ []) :
    encryptChunks md5 secret prev data =
      List.zipWith Nat.xor (data.take 16) (md5 (secret ++ prev)) ++
        encryptChunks md5 secret
          (List.zipWith Nat.xor (data.take 16) (md5 (secret ++ prev)))
          (data.drop 16) := by
  obtain ⟨d, rest, rfl⟩ := List.exists_cons_of_ne_nil h
  rw [encryptChunks]
  simp [List.drop_succ_cons]

lemma decryptChunks_ge16_eq (md5 : List Nat → List Nat)
    (secret prev data : List Nat) (h : ¬ data.length < 16) :
    decryptChunks md5 secret prev data =
      (if data.length = 16 then
        .ok (List.zipWith Nat.xor (md5 (secret ++ prev)) (data.take 16))
      else
        match decryptChunks md5 secret (data.take 16) (data.drop 16) with
        | .ok rest =>
          .ok (List.zipWith Nat.xor (md5 (secret ++ prev)) (data.take 16) ++ rest)
        | .err => .err
        | .fault => .fault) := by
  rw [decryptChunks]
  simp only [h, if_false]

lemma encryptChunks_length (md5 : List Nat → List Nat) (secret : List Nat)
    (hmd5 : ∀ x, (md5 x).length = 16) :
    ∀ n prev data, data.length = 16 * (n + 1) →
      (encryptChunks md5 secret prev data).length = data.length := by
  intro n
  induction n with
  | zero =>
    intro prev data hlen
    have hne : data ≠ [] := by
      intro h; rw [h] at hlen; simp at hlen
    rw [encryptChunks_ne_nil_eq md5 secret prev data hne]
    have hdrop : data.drop 16 = [] := by
      apply List.eq_nil_of_length_eq_zero
      simp [List.length_drop]
      omega
    rw [hdrop, encryptChunks]
    simp [List.length_take, hmd5]
    omega
  | succ n ih =>
    intro prev data hlen
    have hne : data ≠ [] := by
      intro h; rw [h] at hlen; simp at hlen
    rw [encryptChunks_ne_nil_eq md5 secret prev data hne]
    have hdroplen : (data.drop 16).length = 16 * (n + 1) := by
      simp [List.length_drop]
      omega
    rw [List.length_append, ih _ _ hdroplen, hdroplen]
    simp [List.length_take, hmd5]
    omega

lemma decryptChunks_encryptChunks (md5 : List Nat → List Nat)
    (secret : List Nat) (hmd5 : ∀ x, (md5 x).length = 16) :
    ∀ n prev data, data.length = 16 * (n + 1) →
      decryptChunks md5 secret prev (encryptChunks md5 secret prev data) =
        .ok data := by
  intro n
  induction n with
  | zero =>
    intro prev data hlen
    have hne : data ≠ [] := by
      intro h; rw [h] at hlen; simp at hlen
    rw [encryptChunks_ne_nil_eq md5 secret prev data hne]
    have hdrop : data.drop 16 = [] := by
      apply List.eq_nil_of_length_eq_zero
      simp [List.length_drop]
      omega
    have htake : data.take 16 = data := List.take_of_length_le (by omega)
    rw [hdrop, encryptChunks, htake]
    have hclen : (List.zipWith Nat.xor data (md5 (secret ++ prev))).length = 16 := by
      simp [hmd5]; omega
    rw [List.append_nil, decryptChunks]
    simp only [hclen]
    norm_num
    rw [List.take_of_length_le (by omega)]
    rw [zipWith_xor_cancel _ _ (by rw [hmd5]; omega)]
  | succ n ih =>
    intro prev data hlen
    have hne : data ≠ [] := by
      intro h; rw [h] at hlen; simp at hlen
    have hdroplen : (data.drop 16).length = 16 * (n + 1) := by
      simp [List.length_drop]
      omega
    have htakelen : (data.take 16).length = 16 := by
      simp [List.length_take]
      omega
    rw [encryptChunks_ne_nil_eq md5 secret prev data hne]
    set c := List.zipWith Nat.xor (data.take 16) (md5 (secret ++ prev)) with hc
    have hclen : c.length = 16 := by
      simp [hc, hmd5]
      omega
    have henclen : (encryptChunks md5 secret c (data.drop 16)).length = 16 * (n + 1) := by
      rw [encryptChunks_length md5 secret hmd5 n c _ hdroplen, hdroplen]
    have htotlen : (c ++ encryptChunks md5 secret c (data.drop 16)).length = 16 * (n + 2) := by
      rw [List.length_append, hclen, henclen]; ring
    rw [decryptChunks_ge16_eq md5 secret prev _ (by omega)]
    have h16 : ¬ (c ++ encryptChunks md5 secret c (data.drop 16)).length = 16 := by
      omega
    rw [if_neg h16]
    have htakec : (c ++ encryptChunks md5 secret c (data.drop 16)).take 16 = c := by
      rw [← hclen, List.take_left]
    have hdropc : (c ++ encryptChunks md5 secret c (data.drop 16)).drop 16 =
        encryptChunks md5 secret c (data.drop 16) := by
      rw [← hclen, List.drop_left]
    rw [htakec, hdropc, ih c (data.drop 16) hdroplen]
    have hp : List.zipWith Nat.xor (md5 (secret ++ prev)) c = data.take 16 := by
      rw [hc]
      exact zipWith_xor_cancel _ _ (by rw [hmd5, htakelen])
    rw [hp]
    simp [List.take_append_drop]

lemma decryptChunks_ok_length (md5 : List Nat → List Nat) (secret : List Nat)
    (hmd5 : ∀ x, (md5 x).length = 16) :
    ∀ n prev data, data.length = 16 * (n + 1) →
      ∃ res, decryptChunks md5 secret prev data = .ok res ∧
        res.length = data.length := by
  intro n
  induction n with
  | zero =>
    intro prev data hlen
    refine ⟨List.zipWith Nat.xor (md5 (secret ++ prev)) (data.take 16), ?_, ?_⟩
    · rw [decryptChunks_ge16_eq md5 secret prev data (by omega)]
      rw [if_pos (by omega)]
    · simp [hmd5]
      omega
  | succ n ih =>
    intro prev data hlen
    obtain ⟨res, hres, hreslen⟩ := ih (data.take 16) (data.drop 16)
      (by simp [List.length_drop]; omega)
    refine ⟨List.zipWith Nat.xor (md5 (secret ++ prev)) (data.take 16) ++ res, ?_, ?_⟩
    · rw [decryptChunks_ge16_eq md5 secret prev data (by omega)]
      rw [if_neg (by omega), hres]
    · simp [hmd5, List.length_drop] at hreslen ⊢
      omega

lemma stripRev_replicate_zero_append (k : Nat) (ys : List Nat) :
    stripRev (List.replicate k 0 ++ ys) = stripRev ys := by
  induction k with
  | zero => simp
  | succ k ih => simpa [List.replicate_succ, stripRev] using ih

lemma stripRev_all_zero (xs : List Nat) (hz : ∀ b ∈ xs, b = 0) :
    stripRev xs = none := by
  induction xs with
  | nil => rfl
  | cons x t ih =>
    have hx : x = 0 := hz x (by simp)
    simp only [stripRev, hx, if_pos rfl]
    exact ih (fun b hb => hz b (by simp [hb]))

lemma stripTrailingZeros_all_zero (xs : List Nat) (hz : ∀ b ∈ xs, b = 0) :
    stripTrailingZeros xs = none := by
  unfold stripTrailingZeros
  rw [stripRev_all_zero _ (fun b hb => hz b (List.mem_reverse.mp hb))]
  rfl

lemma stripTrailingZeros_pad (data : List Nat) (k : Nat)
    (hne : data ≠ []) (hlast : data.getLast? ≠ some 0) :
    stripTrailingZeros (data ++ List.replicate k 0) = some data := by
  unfold stripTrailingZeros
  rw [List.reverse_append, List.reverse_replicate,
    stripRev_replicate_zero_append]
  obtain ⟨b, t, hbt⟩ := List.exists_cons_of_ne_nil
    (by simpa using hne : data.reverse ≠ [])
  have hb : data.getLast? = some b := by
    rw [← List.head?_reverse, hbt]; rfl
  have hbne : ¬ b = 0 := by
    intro h; rw [h] at hb; exact hlast hb
  rw [hbt]
  simp only [stripRev, if_neg hbne, Option.map_some']
  rw [← hbt]
  simp

/-- C3: for every plaintext whose final byte is non-zero, a 16-byte
authenticator, and any secret, `DecryptData` inverts `EncryptData`
(assuming MD5 returns 16 bytes, as real MD5 does). -/
theorem decryptData_encryptData (md5 : List Nat → List Nat)
    (data authenticator secret : List Nat)
    (hmd5 : ∀ x, (md5 x).length = 16)
    (hauth : authenticator.length = 16)
    (hne : data ≠ []) (hlast : data.getLast? ≠ some 0) :
    DecryptData md5 (EncryptData md5 data authenticator secret)
      authenticator secret = .ok data := by
  have hfit : goCopyFit 16 authenticator = authenticator := by
    unfold goCopyFit
    rw [← hauth, List.take_left]
  have hdlen : 0 < data.length := List.length_pos.mpr hne
  have hpadlen : (data ++ List.replicate (16 - data.length % 16) 0).length =
      16 * (data.length / 16 + 1) := by
    simp [List.length_append, List.length_replicate]
    omega
  unfold DecryptData EncryptData
  rw [hfit, decryptChunks_encryptChunks md5 secret hmd5 (data.length / 16) _ _ hpadlen]
  dsimp only
  rw [stripTrailingZeros_pad data _ hne hlast]

/-- Witness for C3 at a concrete plaintext, authenticator and secret. -/
theorem decryptData_encryptData_witness :
    DecryptData (fun _ => List.replicate 16 1)
      (EncryptData (fun _ => List.replicate 16 1) [112, 97, 115, 115]
        (List.replicate 16 7) [115])
      (List.replicate 16 7) [115] = .ok [112, 97, 115, 115] :=
  decryptData_encryptData (fun _ => List.replicate 16 1)
    [112, 97, 115, 115] (List.replicate 16 7) [115]
    (fun _ => rfl) (by decide) (by decide) (by decide)

/-- C4 (counterexample): for a 16-byte plaintext the output of `EncryptData`
has 32 bytes, not 16 — the smallest multiple of 16 that is ≥ 16. -/
theorem encryptData_length_cex :
    (EncryptData (fun _ => List.replicate 16 1) (List.replicate 16 1)
      (List.replicate 16 0) []).length = 32 ∧
    (EncryptData (fun _ => List.replicate 16 1) (List.replicate 16 1)
      (List.replicate 16 0) []).length ≠ 16 := by
  have h : (EncryptData (fun _ => List.replicate 16 1) (List.replicate 16 1)
      (List.replicate 16 0) []).length = 32 := by
    unfold EncryptData
    rw [encryptChunks_length (fun _ => List.replicate 16 1) []
      (fun _ => rfl) 1 _ _ (by decide)]
    decide
  exact ⟨h, by omega⟩

/-- C4 (amended): the output of `EncryptData` has length
`|P| + (16 − |P| mod 16)`, the smallest multiple of 16 strictly greater
than `|P|` (assuming MD5 returns 16 bytes). -/
theorem encryptData_length (md5 : List Nat → List Nat)
    (data authenticator secret : List Nat)
    (hmd5 : ∀ x, (md5 x).length = 16) :
    (EncryptData md5 data authenticator secret).length =
      data.length + (16 - data.length % 16) := by
  have hpadlen : (data ++ List.replicate (16 - data.length % 16) 0).length =
      16 * (data.length / 16 + 1) := by
    simp [List.length_append, List.length_replicate]
    omega
  unfold EncryptData
  rw [encryptChunks_length md5 secret hmd5 (data.length / 16) _ _ hpadlen]
  simp [List.length_append, List.length_replicate]

/-- Witness for C4's amended claim at a 3-byte plaintext. -/
theorem encryptData_length_witness :
    (EncryptData (fun _ => List.replicate 16 1) [1, 2, 3] []
      []).length = 3 + (16 - 3 % 16) :=
  encryptData_length (fun _ => List.replicate 16 1) [1, 2, 3] [] []
    (fun _ => rfl)

/-- C9: whenever the decryption chain recovers all-zero bytes, the
trailing-zero-stripping loop of `DecryptData` runs off the front of the
buffer and faults instead of returning a value or an error. -/
theorem decryptData_allZero_fault (md5 : List Nat → List Nat)
    (data authenticator secret res : List Nat)
    (hch : decryptChunks md5 secret (goCopyFit 16 authenticator) data = .ok res)
    (hz : ∀ b ∈ res, b = 0) :
    DecryptData md5 data authenticator secret = .fault := by
  unfold DecryptData
  rw [hch]
  dsimp only
  rw [stripTrailingZeros_all_zero res hz]

/-- Witness for C9: decrypting the encryption of an all-zero plaintext
faults. -/
theorem decryptData_allZero_fault_witness :
    DecryptData (fun _ => List.replicate 16 1)
      (EncryptData (fun _ => List.replicate 16 1) (List.replicate 16 0)
        (List.replicate 16 0) [])
      (List.replicate 16 0) [] = .fault :=
  decryptData_allZero_fault (fun _ => List.replicate 16 1)
    (EncryptData (fun _ => List.replicate 16 1) (List.replicate 16 0)
      (List.replicate 16 0) [])
    (List.replicate 16 0) []
    (List.replicate 16 0 ++ List.replicate (16 - (List.replicate 16 (0 : Nat)).length % 16) 0)
    (by
      unfold EncryptData
      rw [show goCopyFit 16 (List.replicate 16 0) = List.replicate 16 0 from by decide]
      exact decryptChunks_encryptChunks (fun _ => List.replicate 16 1) []
        (fun _ => rfl) 1 _ _ (by decide))
    (by decide)

/-! ## Tunnel-Password decryption (C5) -/

lemma chainSpecBlocks_ne_nil_eq (md5 : List Nat → List Nat)
    (secret prev data : List Nat) (h : data ≠ []) :
    chainSpecBlocks md5 secret prev data =
      List.zipWith Nat.xor (md5 (secret ++ prev)) (data.take 16) ++
        chainSpecBlocks md5 secret (data.take 16) (data.drop 16) := by
  obtain ⟨d, rest, rfl⟩ := List.exists_cons_of_ne_nil h
  rw [chainSpecBlocks]
  simp [List.drop_succ_cons]

lemma chainSpecBlocks_ones_zeros :
    ∀ n prev, chainSpecBlocks (fun _ => List.replicate 16 1) [] prev
      (List.replicate (16 * (n + 1)) 0) = List.replicate (16 * (n + 1)) 1 := by
  intro n
  induction n with
  | zero =>
    intro prev
    rw [chainSpecBlocks_ne_nil_eq _ _ _ _ (by decide)]
    norm_num
    rw [chainSpecBlocks]
    decide
  | succ n ih =>
    intro prev
    have hsplit : (16 * (n + 1 + 1)) = 16 + 16 * (n + 1) := by ring
    rw [hsplit, List.replicate_add]
    rw [chainSpecBlocks_ne_nil_eq _ _ _ _ (by simp)]
    rw [List.take_left' (by simp), List.drop_left' (by simp)]
    rw [ih]
    have h1 : List.zipWith Nat.xor (List.replicate 16 1)
        (List.replicate 16 (0 : Nat)) = List.replicate 16 1 := by decide
    rw [h1, ← List.replicate_add]

/-- C5 (counterexample): `SaltDecryptData` disagrees with the claim's
description.  On a 19-byte input (length ≥ 18 but not 2 plus a multiple of
16) the decryption loop panics mid-block instead of reading a declared
length, and on a 258-byte input the `uint8` cast of the length makes the
guard see 2 and return an empty plaintext without touching the chain, while
the claim prescribes the chained result `[1]` in both cases. -/
theorem saltDecryptData_cex :
    SaltDecryptData (fun _ => List.replicate 16 1) (List.replicate 19 0)
      (List.replicate 16 0) [] = .fault ∧
    saltDecryptClaimed (fun _ => List.replicate 16 1) (List.replicate 19 0)
      (List.replicate 16 0) [] = .ok [1] ∧
    SaltDecryptData (fun _ => List.replicate 16 1) (List.replicate 258 0)
      (List.replicate 16 0) [] = .ok [] ∧
    saltDecryptClaimed (fun _ => List.replicate 16 1) (List.replicate 258 0)
      (List.replicate 16 0) [] = .ok [1] := by
  set_option maxRecDepth 10000 in
  refine ⟨?_, ?_, ?_, ?_⟩
  · simp [SaltDecryptData, decryptChunks]
  · simp [saltDecryptClaimed, chainSpecBlocks]
    decide
  · decide
  · unfold saltDecryptClaimed
    norm_num
    rw [show List.replicate 256 (0 : Nat) = List.replicate (16 * (15 + 1)) 0
      from by norm_num]
    rw [chainSpecBlocks_ones_zeros 15]
    rw [show List.replicate (16 * (15 + 1)) (1 : Nat) =
      1 :: List.replicate 255 1 from by decide]
    norm_num

/-- C5 (amended): with a 16-byte authenticator and 16-byte MD5,
`SaltDecryptData` returns a decode error when the input length mod 256 is at
most 1; returns an empty plaintext with no error when the input length mod
256 is in [2..17]; and for input lengths in [18..255] whose length minus 2
is a multiple of 16, it runs the inverse chain over the input without its
2-byte salt, reads the first recovered byte as the declared length, fails
exactly when that exceeds the input length minus 3, and otherwise returns
that many following bytes.  (Inputs of other lengths panic in the block
loop or are misclassified by the `uint8` length cast.) -/
theorem saltDecryptData_characterisation (md5 : List Nat → List Nat)
    (data authenticator secret : List Nat)
    (hmd5 : ∀ x, (md5 x).length = 16) (hauth : authenticator.length = 16) :
    (data.length % 256 ≤ 1 →
      SaltDecryptData md5 data authenticator secret = .err) ∧
    (2 ≤ data.length % 256 → data.length % 256 ≤ 17 →
      SaltDecryptData md5 data authenticator secret = .ok []) ∧
    (18 ≤ data.length → data.length ≤ 255 → (data.length - 2) % 16 = 0 →
      ∃ targetLen rest,
        decryptChunks md5 secret (authenticator.take 16 ++ data.take 2)
          (data.drop 2) = .ok (targetLen :: rest) ∧
        SaltDecryptData md5 data authenticator secret =
          if data.length - 3 < targetLen then .err
          else .ok (rest.take targetLen)) := by
  refine ⟨?_, ?_, ?_⟩
  · intro h
    unfold SaltDecryptData
    rw [if_pos h]
  · intro h2 h17
    unfold SaltDecryptData
    rw [if_neg (by omega), if_pos h17]
  · intro h18 h255 hmul
    have hmod : data.length % 256 = data.length := Nat.mod_eq_of_lt (by omega)
    have hdl : (data.drop 2).length = 16 * (((data.length - 2) / 16 - 1) + 1) := by
      simp only [List.length_drop]
      omega
    obtain ⟨res, hres, hreslen⟩ := decryptChunks_ok_length md5 secret hmd5
      ((data.length - 2) / 16 - 1) (authenticator.take 16 ++ data.take 2)
      (data.drop 2) hdl
    match res, hres, hreslen with
    | [], hres, hreslen => simp at hreslen; omega
    | t :: rest, hres, hreslen =>
      refine ⟨t, rest, hres, ?_⟩
      unfold SaltDecryptData
      rw [if_neg (by omega), if_neg (by omega), if_neg (by omega), hres]
      dsimp only
      rw [hmod]

/-- Witness for C5's amended claim: a 16-byte buffer decodes to the empty
password. -/
theorem saltDecryptData_characterisation_witness :
    SaltDecryptData (fun _ => List.replicate 16 1) (List.replicate 16 0)
      (List.replicate 16 0) [] = .ok [] :=
  (saltDecryptData_characterisation (fun _ => List.replicate 16 1)
    (List.replicate 16 0) (List.replicate 16 0) []
    (fun _ => rfl) (by decide)).2.1 (by decide) (by decide)

/-! ## Attribute validation (C7) -/

/-- C7 (counterexample): `VerifyOriginalValue` on an 8-byte value with the
integer64 type returns false — the switch has no Integer64 case, so the
claim's "true iff length is 8" fails at length 8. -/
theorem verifyOriginalValue_integer64_cex :
    RadiusAttribute.VerifyOriginalValue (fun _ => "")
      ⟨124, "MIP6-Feature-Vector", List.replicate 8 0⟩ .integer64 = false ∧
    (List.replicate 8 (0 : Nat)).length = 8 :=
  ⟨rfl, rfl⟩

/-- C7 (amended): validation of an integer64-typed value always returns
false (the type is not handled and falls to the default case), while
integer- and time-typed values validate exactly when they are 4 bytes
long. -/
theorem verifyOriginalValue_integer_kinds (ip16ToString : List Nat → String)
    (radAttr : RadiusAttribute) :
    radAttr.VerifyOriginalValue ip16ToString .integer64 = false ∧
    (radAttr.VerifyOriginalValue ip16ToString .integer = true ↔
      radAttr.value.length = 4) ∧
    (radAttr.VerifyOriginalValue ip16ToString .date = true ↔
      radAttr.value.length = 4) := by
  refine ⟨rfl, ?_, ?_⟩ <;>
  · unfold RadiusAttribute.VerifyOriginalValue
    rcases radAttr with ⟨i, n, v⟩
    dsimp only
    rcases v with _ | ⟨a, _ | ⟨b, _ | ⟨c, _ | ⟨d, _ | ⟨e, t⟩⟩⟩⟩⟩ <;>
      simp [BytesToInteger, BytesToTimestamp]

/-! ## Empty-string IP decode (C8) -/

/-- C8 (amended): on the empty input string, `IPv6StringToBytes` returns an
empty byte vector with no error (Go `net.ParseIP("")` is nil and appending
nil is a no-op), while `IPv4StringToBytes` panics slicing `nil[12:]` instead
of returning an error. -/
theorem emptyString_ip_decoders (parseIP : String → List Nat)
    (h : parseIP "" = []) :
    IPv6StringToBytes parseIP "" = .ok [] ∧
    IPv4StringToBytes parseIP "" = .fault := by
  constructor
  · unfold IPv6StringToBytes
    rw [show goSplitSlash "" = [""] from rfl]
    norm_num
    rw [h]
  · unfold IPv4StringToBytes
    rw [show goSplitSlash "" = [""] from rfl]
    norm_num
    rw [h]
    decide

/-- Witness for C8's amended claim with the concrete `net.ParseIP`
behaviour on the empty string. -/
theorem emptyString_ip_decoders_witness :
    IPv6StringToBytes (fun _ => []) "" = .ok [] ∧
    IPv4StringToBytes (fun _ => []) "" = .fault :=
  emptyString_ip_decoders (fun _ => []) rfl

/-- C8 (counterexample): on the empty string neither decoder returns an
error value, contradicting the claim that both fail with a non-nil
error. -/
theorem emptyString_ip_decoders_cex :
    IPv6StringToBytes (fun _ => []) "" ≠ .err ∧
    IPv4StringToBytes (fun _ => []) "" ≠ .err := by
  decide


/-! ## Dictionary numeric-field failures (C6) -/

/-- A line whose first field is ATTRIBUTE or VENDOR and whose third field
does not parse as a decimal u8. -/
def isBadNumericLine (line : String) : Bool :=
  let f := goFields line
  (f.head? == some "ATTRIBUTE" || f.head? == some "VENDOR") &&
    match f.get? 2 with
    | some s => (parseUint8 s).isNone
    | none => false

lemma parseAttribute_ne_err (parsedLine : List String) (vendorName : String)
    (attributes : List DictionaryAttribute) :
    parseAttribute parsedLine vendorName attributes ≠ .err := by
  unfold parseAttribute
  repeat' split
  all_goals simp

lemma parseValue_ne_err (parsedLine : List String) (vendorName : String)
    (values : List DictionaryValue) :
    parseValue parsedLine vendorName values ≠ .err := by
  unfold parseValue
  repeat' split
  all_goals simp

lemma parseVendor_ne_err (parsedLine : List String)
    (vendors : List DictionaryVendor) :
    parseVendor parsedLine vendors ≠ .err := by
  unfold parseVendor
  repeat' split
  all_goals simp

lemma parseAttribute_fault_of_bad (parsedLine : List String)
    (vendorName : String) (attributes : List DictionaryAttribute)
    (s : String) (hs : parsedLine.get? 2 = some s)
    (hbad : (parseUint8 s).isNone = true) :
    parseAttribute parsedLine vendorName attributes = .fault := by
  unfold parseAttribute
  rw [hs]
  dsimp only
  rw [Option.isNone_iff_eq_none] at hbad
  rw [hbad]

lemma parseVendor_fault_of_bad (parsedLine : List String)
    (vendors : List DictionaryVendor)
    (s : String) (hs : parsedLine.get? 2 = some s)
    (hbad : (parseUint8 s).isNone = true) :
    parseVendor parsedLine vendors = .fault := by
  unfold parseVendor
  rw [hs]
  dsimp only
  rw [Option.isNone_iff_eq_none] at hbad
  rw [hbad]

lemma dictionaryFromLines_fault :
    ∀ (lines : List String) attrs vals vens vendorName,
      (∃ l ∈ lines, isBadNumericLine l = true ∧ l ≠ "" ∧
        goStartsWith l "#" = false) →
      dictionaryFromLines lines attrs vals vens vendorName = .fault := by
  intro lines
  induction lines with
  | nil => intro _ _ _ _ h; simp at h
  | cons line rest ih =>
    intro attrs vals vens vendorName h
    obtain ⟨l, hl, hbadl⟩ := h
    rcases List.mem_cons.mp hl with hl | hl
    · subst hl
      obtain ⟨hbad, hne, hpfx⟩ := hbadl
      unfold dictionaryFromLines
      rw [if_neg (by simp [hne, hpfx])]
      unfold isBadNumericLine at hbad
      simp only [Bool.and_eq_true, Bool.or_eq_true, beq_iff_eq] at hbad
      obtain ⟨htok, hnum⟩ := hbad
      rcases hget : (goFields l).get? 2 with _ | s
      · rw [hget] at hnum; simp at hnum
      · rw [hget] at hnum
        dsimp only at hnum
        rcases htok with htok | htok
        · rw [htok]
          dsimp only
          rw [if_pos rfl]
          rw [parseAttribute_fault_of_bad _ _ _ s hget hnum]
        · rw [htok]
          dsimp only
          rw [if_neg (by decide), if_neg (by decide), if_pos rfl]
          rw [parseVendor_fault_of_bad _ _ s hget hnum]
    · have hrest : ∃ l ∈ rest, isBadNumericLine l = true ∧ l ≠ "" ∧
          goStartsWith l "#" = false := ⟨l, hl, hbadl⟩
      unfold dictionaryFromLines
      split
      · exact ih _ _ _ _ hrest
      · rcases hhead : (goFields line).head? with _ | tok
        · rfl
        · dsimp only
          by_cases hA : tok = "ATTRIBUTE"
          · rw [if_pos hA]
            rcases hpa : parseAttribute (goFields line) vendorName attrs with a | _ | _
            · exact ih _ _ _ _ hrest
            · exact absurd hpa (parseAttribute_ne_err _ _ _)
            · rfl
          · rw [if_neg hA]
            by_cases hV : tok = "VALUE"
            · rw [if_pos hV]
              rcases hpv : parseValue (goFields line) vendorName vals with a | _ | _
              · exact ih _ _ _ _ hrest
              · exact absurd hpv (parseValue_ne_err _ _ _)
              · rfl
            · rw [if_neg hV]
              by_cases hVe : tok = "VENDOR"
              · rw [if_pos hVe]
                rcases hpv : parseVendor (goFields line) vens with a | _ | _
                · exact ih _ _ _ _ hrest
                · exact absurd hpv (parseVendor_ne_err _ _)
                · rfl
              · rw [if_neg hVe]
                by_cases hB : tok = "BEGIN-VENDOR"
                · rw [if_pos hB]
                  rcases hg : (goFields line).get? 1 with _ | vn
                  · rfl
                  · exact ih _ _ _ _ hrest
                · rw [if_neg hB]
                  by_cases hE : tok = "END-VENDOR"
                  · rw [if_pos hE]; exact ih _ _ _ _ hrest
                  · rw [if_neg hE]; exact ih _ _ _ _ hrest


/-- C6 (counterexample): an out-of-range attribute code makes the load
panic; `DictionaryFromFile` does not return an error value to the caller. -/
theorem dictionaryFromFile_numeric_cex :
    DictionaryFromFile ["ATTRIBUTE User-Name 999 text"] ≠ .err ∧
    DictionaryFromFile ["ATTRIBUTE User-Name 999 text"] = .fault := by
  decide

/-- C6 (amended): for every dictionary file containing a non-comment
ATTRIBUTE or VENDOR line whose numeric field (attribute code or vendor id)
does not parse as a decimal u8, `DictionaryFromFile` panics (`panic(err)` in
`parseAttribute`/`parseVendor`): the load aborts and no partial dictionary
is produced, but the abort is a panic, not an error value returned to the
caller. -/
theorem dictionaryFromFile_numeric_fault (lines : List String)
    (h : ∃ l ∈ lines, isBadNumericLine l = true ∧ l ≠ "" ∧
      goStartsWith l "#" = false) :
    DictionaryFromFile lines = .fault :=
  dictionaryFromLines_fault lines [] [] [] "" h

/-- Witness for C6's amended claim on a one-line dictionary file. -/
theorem dictionaryFromFile_numeric_fault_witness :
    DictionaryFromFile ["ATTRIBUTE User-Name 999 text"] = .fault :=
  dictionaryFromFile_numeric_fault ["ATTRIBUTE User-Name 999 text"]
    ⟨"ATTRIBUTE User-Name 999 text", by decide, by decide, by decide, by decide⟩


/-! ## Packet round trip (C1) -/

lemma typeCode_roundtrip (code : TypeCode) :
    typeCodeFromUint8 (typeCodeToUint8 code) = some code := by
  cases code <;> rfl

lemma create_of_resolvesFirst (dictionary : Dictionary) (id : Nat)
    (name : String) (h : resolvesFirst dictionary id name = true)
    (v : List Nat) :
    CreateRadAttributeByID dictionary id v = some ⟨id, name, v⟩ := by
  unfold resolvesFirst at h
  unfold CreateRadAttributeByID
  rcases hf : dictionary.attributes.find? (fun attr => attr.code == id) with _ | attr
  · rw [hf] at h; simp at h
  · rw [hf] at h
    simp only [beq_iff_eq] at h
    rw [hf]
    dsimp only
    rw [h]

lemma parseAttributes_toBytes (dictionary : Dictionary) :
    ∀ attrs : List RadiusAttribute,
      (∀ a ∈ attrs, a.value.length ≤ 253 ∧
        resolvesFirst dictionary a.id a.name = true) →
      parseAttributes dictionary
        (List.flatten (attrs.map RadiusAttribute.toBytes)) = .ok attrs := by
  intro attrs
  induction attrs with
  | nil => intro _; simp [parseAttributes]
  | cons a rest ih =>
    intro h
    obtain ⟨hlen, hres⟩ := h a (by simp)
    have hrest := ih (fun b hb => h b (by simp [hb]))
    rw [List.map_cons, List.flatten_cons]
    rw [show RadiusAttribute.toBytes a =
      a.id :: (2 + a.value.length) % 256 :: a.value from rfl]
    rw [List.cons_append, List.cons_append]
    rw [parseAttributes]
    have hmod : (2 + a.value.length) % 256 = 2 + a.value.length :=
      Nat.mod_eq_of_lt (by omega)
    rw [hmod]
    rw [if_neg (by omega)]
    rw [if_neg (by simp)]
    have hsub : 2 + a.value.length - 2 = a.value.length := by omega
    rw [hsub, List.take_left' rfl, List.drop_left' rfl]
    rw [create_of_resolvesFirst dictionary a.id a.name hres a.value]
    dsimp only
    rw [hrest]



lemma initialise_decomp (dictionary : Dictionary) (b0 b1 b2 b3 : Nat)
    (auth rest : List Nat) (hauth : auth.length = 16) :
    InitialiseRadiusPacketFromBytes dictionary
      (b0 :: b1 :: b2 :: b3 :: (auth ++ rest)) =
      match typeCodeFromUint8 b0 with
      | none => .err
      | some code =>
        match parseAttributes dictionary rest with
        | .ok attrs => .ok ⟨b1, code, auth, attrs⟩
        | .err => .err
        | .fault => .fault := by
  unfold InitialiseRadiusPacketFromBytes
  dsimp only
  rcases h0 : typeCodeFromUint8 b0 with _ | code
  · rfl
  · dsimp only
    rw [if_neg (by simp [hauth])]
    have hdrop4 : (b0 :: b1 :: b2 :: b3 :: (auth ++ rest)).drop 4 = auth ++ rest := rfl
    have hdrop20 : (b0 :: b1 :: b2 :: b3 :: (auth ++ rest)).drop 20 =
        (auth ++ rest).drop 16 := rfl
    rw [hdrop4, hdrop20, List.take_left' hauth, List.drop_left' hauth]
    rfl

lemma toBytes_shape (fresh : List Nat) (p : RadiusPacket)
    (hne : p.authenticator ≠ []) :
    p.ToBytes fresh =
      typeCodeToUint8 p.code :: p.id ::
      (20 + (List.flatten (p.attributes.map RadiusAttribute.toBytes)).length) % 65536 / 256 % 256 ::
      (20 + (List.flatten (p.attributes.map RadiusAttribute.toBytes)).length) % 65536 % 256 ::
      (p.authenticator ++ List.flatten (p.attributes.map RadiusAttribute.toBytes)) := by
  unfold RadiusPacket.ToBytes packetLengthToBytes
  have hie : p.authenticator.isEmpty = false := by
    simpa [List.isEmpty_iff] using hne
  rw [hie]
  simp

lemma initialise_toBytes (dictionary : Dictionary) (fresh : List Nat)
    (p : RadiusPacket) (hauth : p.authenticator.length = 16)
    (hattrs : ∀ a ∈ p.attributes, a.value.length ≤ 253 ∧
      resolvesFirst dictionary a.id a.name = true) :
    InitialiseRadiusPacketFromBytes dictionary (p.ToBytes fresh) = .ok p := by
  have hne : p.authenticator ≠ [] := by
    intro h; rw [h] at hauth; simp at hauth
  rw [toBytes_shape fresh p hne]
  rw [initialise_decomp dictionary _ _ _ _ _ _ hauth]
  rw [typeCode_roundtrip]
  dsimp only
  rw [parseAttributes_toBytes dictionary p.attributes hattrs]

/-- C1: for every well-formed packet (16-byte authenticator, every
attribute value at most 253 bytes, every attribute id resolving in the
dictionary with its name the first match for that id), parsing the
serialization yields the packet back: equal code, id, authenticator and
ordered attribute sequence. -/
theorem packet_roundtrip (dictionary : Dictionary) (fresh : List Nat)
    (p : RadiusPacket) (hauth : p.authenticator.length = 16)
    (hattrs : ∀ a ∈ p.attributes, a.value.length ≤ 253 ∧
      resolvesFirst dictionary a.id a.name = true) :
    InitialiseRadiusPacketFromBytes dictionary (p.ToBytes fresh) = .ok p :=
  initialise_toBytes dictionary fresh p hauth hattrs

/-- Witness for C1 on a concrete dictionary and packet. -/
theorem packet_roundtrip_witness :
    InitialiseRadiusPacketFromBytes
      ⟨[⟨"User-Name", "", 1, .asciiString⟩,
        ⟨"Message-Authenticator", "", 80, .byteString⟩], [], []⟩
      (RadiusPacket.ToBytes []
        ⟨42, .accessRequest, List.replicate 16 9,
          [⟨1, "User-Name", [104, 105]⟩]⟩) =
      .ok ⟨42, .accessRequest, List.replicate 16 9,
        [⟨1, "User-Name", [104, 105]⟩]⟩ :=
  packet_roundtrip
    ⟨[⟨"User-Name", "", 1, .asciiString⟩,
      ⟨"Message-Authenticator", "", 80, .byteString⟩], [], []⟩ []
    ⟨42, .accessRequest, List.replicate 16 9, [⟨1, "User-Name", [104, 105]⟩]⟩
    (by decide) (by decide)


/-! ## Malformed attribute regions (C10) -/

/-- The attribute scan of the packet decoder reaches a malformed header:
a lone trailing byte, a length byte below 2, or a length byte running past
the end of the region (headers are walked exactly as the decoder walks
them, through attributes that resolve in the dictionary). -/
def reachesBadHeader (dictionary : Dictionary) (data : List Nat) : Bool :=
  match data with
  | [] => false
  | [_] => true
  | attrId :: attrLength :: rest =>
    if attrLength < 2 then true
    else if rest.length < attrLength - 2 then true
    else
      match CreateRadAttributeByID dictionary attrId (rest.take (attrLength - 2)) with
      | none => false
      | some _ => reachesBadHeader dictionary (rest.drop (attrLength - 2))
termination_by data.length
decreasing_by
  simp only [List.length_drop, List.length_cons]
  omega

lemma parseAttributes_fault_of_bad (dictionary : Dictionary) :
    ∀ n (data : List Nat), data.length ≤ n →
      reachesBadHeader dictionary data = true →
      parseAttributes dictionary data = .fault := by
  intro n
  induction n with
  | zero =>
    intro data hlen h
    have hd : data = [] := List.eq_nil_of_length_eq_zero (by omega)
    rw [hd] at h
    simp [reachesBadHeader] at h
  | succ n ih =>
    intro data hlen h
    rcases data with _ | ⟨attrId, _ | ⟨attrLength, rest⟩⟩
    · simp [reachesBadHeader] at h
    · rw [parseAttributes]
    · rw [reachesBadHeader] at h
      rw [parseAttributes]
      by_cases h2 : attrLength < 2
      · rw [if_pos h2]
      · rw [if_neg h2] at h ⊢
        by_cases h3 : rest.length < attrLength - 2
        · rw [if_pos h3]
        · rw [if_neg h3] at h ⊢
          rcases hc : CreateRadAttributeByID dictionary attrId
              (rest.take (attrLength - 2)) with _ | attr
          · rw [hc] at h; simp at h
          · rw [hc] at h
            dsimp only at h
            dsimp only
            rw [ih (rest.drop (attrLength - 2))
              (by simp only [List.length_drop, List.length_cons] at hlen ⊢; omega) h]

/-- C10: whenever the attribute scan of `InitialiseRadiusPacketFromBytes`
reaches a header with length byte less than 2, a header whose length byte
runs past the end of the buffer, or a lone trailing byte, the decoder
faults (slice/index out of range) instead of returning an error value. -/
theorem initialise_malformed_fault (dictionary : Dictionary) (bytes : List Nat)
    (h20 : 20 ≤ bytes.length)
    (hcode : typeCodeFromUint8 (bytes.headD 0) ≠ none)
    (hbad : reachesBadHeader dictionary (bytes.drop 20) = true) :
    InitialiseRadiusPacketFromBytes dictionary bytes = .fault := by
  rcases bytes with _ | ⟨b0, tail⟩
  · simp at h20
  · unfold InitialiseRadiusPacketFromBytes
    dsimp only
    simp only [List.headD_cons] at hcode
    rcases h0 : typeCodeFromUint8 b0 with _ | code
    · exact absurd h0 hcode
    · dsimp only
      rw [if_neg (by omega)]
      rw [parseAttributes_fault_of_bad dictionary ((b0 :: tail).drop 20).length
        ((b0 :: tail).drop 20) le_rfl hbad]

/-- Witness for C10: a 21-byte buffer whose attribute region is a single
stray byte faults. -/
theorem initialise_malformed_fault_witness :
    InitialiseRadiusPacketFromBytes ⟨[⟨"User-Name", "", 1, .asciiString⟩], [], []⟩
      [1, 0, 0, 0, 0, 0, 0, 0, 0, 0, 0, 0, 0, 0, 0, 0, 0, 0, 0, 0, 5] = .fault :=
  initialise_malformed_fault ⟨[⟨"User-Name", "", 1, .asciiString⟩], [], []⟩
    [1, 0, 0, 0, 0, 0, 0, 0, 0, 0, 0, 0, 0, 0, 0, 0, 0, 0, 0, 0, 5]
    (by decide) (by decide)
    (by
      rw [show ([1, 0, 0, 0, 0, 0, 0, 0, 0, 0, 0, 0, 0, 0, 0, 0, 0, 0, 0, 0, 5] :
        List Nat).drop 20 = [5] from by decide]
      rw [reachesBadHeader])


/-! ## Message-Authenticator generate/verify (C2) -/

lemma overrideFirstMA_isSome (v : List Nat) :
    ∀ attrs : List RadiusAttribute,
      (∃ a ∈ attrs, a.name = "Message-Authenticator") →
      ∃ attrs2, overrideFirstMA v attrs = some attrs2 := by
  intro attrs
  induction attrs with
  | nil => intro h; simp at h
  | cons a rest ih =>
    intro h
    unfold overrideFirstMA
    by_cases ha : a.name = "Message-Authenticator"
    · exact ⟨_, by rw [if_pos ha]⟩
    · rw [if_neg ha]
      have hrest : ∃ b ∈ rest, b.name = "Message-Authenticator" := by
        obtain ⟨b, hb, hbn⟩ := h
        rcases List.mem_cons.mp hb with rfl | hb
        · exact absurd hbn ha
        · exact ⟨b, hb, hbn⟩
      obtain ⟨r2, hr2⟩ := ih hrest
      exact ⟨a :: r2, by rw [hr2]; rfl⟩

lemma override_override (v w : List Nat) :
    ∀ (attrs attrs1 : List RadiusAttribute),
      overrideFirstMA v attrs = some attrs1 →
      overrideFirstMA w attrs1 = overrideFirstMA w attrs := by
  intro attrs
  induction attrs with
  | nil => intro attrs1 h; simp [overrideFirstMA] at h
  | cons a rest ih =>
    intro attrs1 h
    unfold overrideFirstMA at h
    by_cases ha : a.name = "Message-Authenticator"
    · rw [if_pos ha] at h
      obtain rfl := Option.some.inj h
      unfold overrideFirstMA
      rw [if_pos (show ({ a with value := v } : RadiusAttribute).name =
        "Message-Authenticator" from ha), if_pos ha]
    · rw [if_neg ha] at h
      rcases hr : overrideFirstMA v rest with _ | r1
      · rw [hr] at h; simp at h
      · rw [hr] at h
        simp only [Option.map_some'] at h
        obtain rfl := Option.some.inj h
        unfold overrideFirstMA
        rw [if_neg ha, if_neg ha, ih r1 hr]

lemma find?_after_override (v : List Nat) :
    ∀ (attrs attrs1 : List RadiusAttribute),
      overrideFirstMA v attrs = some attrs1 →
      (attrs1.find? (fun attr => attr.name == "Message-Authenticator")).map
        RadiusAttribute.value = some v := by
  intro attrs
  induction attrs with
  | nil => intro attrs1 h; simp [overrideFirstMA] at h
  | cons a rest ih =>
    intro attrs1 h
    unfold overrideFirstMA at h
    by_cases ha : a.name = "Message-Authenticator"
    · rw [if_pos ha] at h
      obtain rfl := Option.some.inj h
      rw [List.find?_cons_of_pos _ (by simpa using ha)]
      rfl
    · rw [if_neg ha] at h
      rcases hr : overrideFirstMA v rest with _ | r1
      · rw [hr] at h; simp at h
      · rw [hr] at h
        simp only [Option.map_some'] at h
        obtain rfl := Option.some.inj h
        rw [List.find?_cons_of_neg _ (by simpa using ha)]
        exact ih r1 hr

lemma mem_after_override (v : List Nat) :
    ∀ (attrs attrs1 : List RadiusAttribute),
      overrideFirstMA v attrs = some attrs1 →
      ∀ b ∈ attrs1, ∃ a ∈ attrs, b = a ∨ b = { a with value := v } := by
  intro attrs
  induction attrs with
  | nil => intro attrs1 h; simp [overrideFirstMA] at h
  | cons a rest ih =>
    intro attrs1 h b hb
    unfold overrideFirstMA at h
    by_cases ha : a.name = "Message-Authenticator"
    · rw [if_pos ha] at h
      obtain rfl := Option.some.inj h
      rcases List.mem_cons.mp hb with rfl | hb
      · exact ⟨a, by simp, Or.inr rfl⟩
      · exact ⟨b, by simp [hb], Or.inl rfl⟩
    · rw [if_neg ha] at h
      rcases hr : overrideFirstMA v rest with _ | r1
      · rw [hr] at h; simp at h
      · rw [hr] at h
        simp only [Option.map_some'] at h
        obtain rfl := Option.some.inj h
        rcases List.mem_cons.mp hb with rfl | hb
        · exact ⟨b, by simp, Or.inl rfl⟩
        · obtain ⟨a', ha', hor⟩ := ih r1 hr b hb
          exact ⟨a', by simp [ha'], hor⟩



/-- C2: for every packet carrying a Message-Authenticator attribute whose
attributes all resolve in the host's dictionary (16-byte authenticator,
values at most 253 bytes), `GenerateMessageAuthenticator` succeeds and
`VerifyMessageAuthenticator` on the serialized result with the same secret
and dictionary succeeds, for any 16-byte-output HMAC function. -/
theorem generate_then_verify (hmac : List Nat → List Nat → List Nat)
    (fresh secret : List Nat) (host : Host) (p : RadiusPacket)
    (hauth : p.authenticator.length = 16)
    (hMA : ∃ a ∈ p.attributes, a.name = "Message-Authenticator")
    (hres : ∀ a ∈ p.attributes, a.value.length ≤ 253 ∧
      resolvesFirst host.dictionary a.id a.name = true)
    (hhmac : ∀ m, (hmac secret m).length = 16) :
    ∃ p2, p.GenerateMessageAuthenticator hmac fresh secret = some p2 ∧
      host.VerifyMessageAuthenticator hmac fresh secret (p2.ToBytes fresh) =
        .ok () := by
  obtain ⟨attrs1, hov1⟩ := overrideFirstMA_isSome (List.replicate 16 0)
    p.attributes hMA
  obtain ⟨attrs2, hov2⟩ := overrideFirstMA_isSome
    (hmac secret (RadiusPacket.ToBytes fresh ⟨p.id, p.code, p.authenticator, attrs1⟩))
    p.attributes hMA
  refine ⟨⟨p.id, p.code, p.authenticator, attrs2⟩, ?_, ?_⟩
  · unfold RadiusPacket.GenerateMessageAuthenticator
    unfold RadiusPacket.OverrideMessageAuthenticator
    have hp : p = ⟨p.id, p.code, p.authenticator, p.attributes⟩ := rfl
    rw [hp]
    dsimp only
    rw [hov1]
    dsimp only [Option.map_some']
    rw [override_override (List.replicate 16 0) _ p.attributes attrs1 hov1]
    rw [hov2]
    rfl
  · have hres2 : ∀ b ∈ attrs2, b.value.length ≤ 253 ∧
        resolvesFirst host.dictionary b.id b.name = true := by
      intro b hb
      obtain ⟨a, ha, hor⟩ := mem_after_override _ p.attributes attrs2 hov2 b hb
      rcases hor with hba | hba
      · rw [hba]; exact hres a ha
      · rw [hba]
        refine ⟨?_, (hres a ha).2⟩
        have h16 := hhmac (RadiusPacket.ToBytes fresh
          ⟨p.id, p.code, p.authenticator, attrs1⟩)
        dsimp only
        rw [h16]
        norm_num
    have hb2 : InitialiseRadiusPacketFromBytes host.dictionary
        (RadiusPacket.ToBytes fresh ⟨p.id, p.code, p.authenticator, attrs2⟩) =
        .ok ⟨p.id, p.code, p.authenticator, attrs2⟩ :=
      initialise_toBytes host.dictionary fresh _ hauth hres2
    unfold Host.VerifyMessageAuthenticator
    rw [hb2]
    dsimp only
    have hma2 : (RadiusPacket.MessageAuthenticator
        ⟨p.id, p.code, p.authenticator, attrs2⟩) =
        some (hmac secret (RadiusPacket.ToBytes fresh
          ⟨p.id, p.code, p.authenticator, attrs1⟩)) :=
      find?_after_override _ p.attributes attrs2 hov2
    rw [hma2]
    dsimp only
    have hov3 : overrideFirstMA (List.replicate 16 0) attrs2 = some attrs1 := by
      rw [override_override _ _ p.attributes attrs2 hov2, hov1]
    unfold RadiusPacket.OverrideMessageAuthenticator
    dsimp only
    rw [hov3]
    dsimp only [Option.map_some', Option.getD_some]
    rw [if_pos rfl]



/-- Witness for C2 on a concrete host, packet and HMAC function. -/
theorem generate_then_verify_witness :
    ∃ p2, RadiusPacket.GenerateMessageAuthenticator (fun _ _ => List.replicate 16 3)
        [] [115]
        ⟨42, .accessRequest, List.replicate 16 9,
          [⟨1, "User-Name", [104, 105]⟩,
           ⟨80, "Message-Authenticator", List.replicate 16 0⟩]⟩ = some p2 ∧
      Host.VerifyMessageAuthenticator (fun _ _ => List.replicate 16 3) []
        ⟨0, 0, 0, ⟨[⟨"User-Name", "", 1, .asciiString⟩,
          ⟨"Message-Authenticator", "", 80, .byteString⟩], [], []⟩⟩
        [115] (RadiusPacket.ToBytes [] p2) = .ok () :=
  generate_then_verify (fun _ _ => List.replicate 16 3) [] [115]
    ⟨0, 0, 0, ⟨[⟨"User-Name", "", 1, .asciiString⟩,
      ⟨"Message-Authenticator", "", 80, .byteString⟩], [], []⟩⟩
    ⟨42, .accessRequest, List.replicate 16 9,
      [⟨1, "User-Name", [104, 105]⟩,
       ⟨80, "Message-Authenticator", List.replicate 16 0⟩]⟩
    (by decide) (by decide) (by decide) (fun _ => rfl)

end GoRadius
